import Mathlib

/-!
Verification development for the satcom-scripts ACARS stream splitter.

The buffering/framing core lives in `src/split-from-streams.py`
(`AcarsProcessor.process_buffer`, `add_data_to_buffer`, `check_timeouts`)
and, in a single-port variant, in `src/split-from-single-stream.py`
(`process_buffer`, `listen_and_process_acars`).  Python strings are
modelled as `List Char`; emission of a message to the Classifier/Router
is modelled by returning the emitted message in a list (file I/O has no
other effect on the core state).  Timestamps (`time.time()` floats and
the integer `buffer_timeout`) are modelled as `Int`: only differences
and order comparisons occur in the code.
-/

/-- Whitespace set of Python `str.strip()` / regex `\s` on the ASCII
fragment that the ACARS text uses: space, tab, newline, carriage
return, vertical tab, form feed. -/
def is_py_space (c : Char) : Bool :=
  c == ' ' || c == '\t' || c == '\n' || c == '\r' || c == '\x0b' || c == '\x0c'

/-- Python `str.strip()`: drop leading and trailing whitespace. -/
def py_strip (l : List Char) : List Char :=
  ((l.dropWhile is_py_space).reverse.dropWhile is_py_space).reverse

/-- Character classes of the 21-character delimiter regex
`\d\d:\d\d:\d\d \d\d-\d\d-\d\d UTC` used by every variant
(`timestamp_pattern` in the sources), position by position. -/
def delim_classes : List (Char → Bool) :=
  [Char.isDigit, Char.isDigit, (· == ':'), Char.isDigit, Char.isDigit, (· == ':'),
   Char.isDigit, Char.isDigit, (· == ' '),
   Char.isDigit, Char.isDigit, (· == '-'), Char.isDigit, Char.isDigit, (· == '-'),
   Char.isDigit, Char.isDigit, (· == ' '),
   (· == 'U'), (· == 'T'), (· == 'C')]

/-- Does the list begin with the 21-character delimiter pattern? -/
def pattern_at (l : List Char) : Bool :=
  (l.take 21).length == 21 &&
    ((delim_classes.zip (l.take 21)).all fun pc => pc.1 pc.2)

/-- Does the buffer match the delimiter regex at offset `p`?  With
`re.MULTILINE`, `^` matches at offset 0 and right after each `'\n'`. -/
def match_at (buf : List Char) (p : Nat) : Bool :=
  (p == 0 || buf[p-1]? == some '\n') && pattern_at (buf.drop p)

/-- All delimiter match offsets, ascending: the model of
`list(re.finditer(timestamp_pattern, buffer, re.MULTILINE))`.
`finditer` is non-overlapping, but two delimiter matches can never
overlap anyway: the 21 matched characters contain no `'\n'`, so no
later line start falls inside a match (lemma `match_at_apart`). -/
def match_positions (buf : List Char) : List Nat :=
  (List.range buf.length).filter (match_at buf)

/-- Python slice `buf[a:b]`. -/
def sub (buf : List Char) (a b : Nat) : List Char :=
  (buf.drop a).take (b - a)

/-- Span phase of `process_buffer` (both variants): the raw
delimiter-to-delimiter spans `buffer[matches[i].start():matches[i+1].start()]`
for `i = 0 .. len(matches)-2`, and the retained buffer
`buffer[matches[-1].start():]`.  With fewer than two matches the call
is a no-op returning `([], buffer)`. -/
def process_buffer_spans (buf : List Char) : List (List Char) × List Char :=
  let ms := match_positions buf
  if ms.length < 2 then ([], buf)
  else ((ms.zip ms.tail).map (fun pq => sub buf pq.1 pq.2), buf.drop (ms.getLastD 0))

/-- Model of `AcarsProcessor.process_buffer` / `process_buffer`: each
span is emitted as `buffer[start_pos:end_pos].strip()`; the pair is
(emitted messages in emission order, new buffer). -/
def process_buffer (buf : List Char) : List (List Char) × List Char :=
  ((process_buffer_spans buf).1.map py_strip, (process_buffer_spans buf).2)

/-- Per-port state: `self.buffers[port]` and
`self.last_process_times[port]` (called `last_activity` in the spec). -/
structure Source where
  buffer : List Char
  last_process_time : Int
  deriving DecidableEq, Repr

/-- Model of `AcarsProcessor.add_data_to_buffer`: append the datagram
text, run `process_buffer`, and refresh `last_process_times[port]`
only when at least one message was processed. -/
def add_data_to_buffer (st : Source) (data : List Char) (now : Int) :
    Source × List (List Char) :=
  let r := process_buffer (st.buffer ++ data)
  if 0 < r.1.length then (⟨r.2, now⟩, r.1) else (⟨r.2, st.last_process_time⟩, r.1)

/-- Model of the per-port body of `AcarsProcessor.check_timeouts` (one
sweeper wake on one source): if the buffer is non-empty and stale
(`current_time - last_process_times[port] > buffer_timeout * 2`),
`re.search` for the first delimiter; if found, emit
`buffer[match.start():].strip()`, clear the buffer and set
`last_process_times[port]` to now; otherwise do nothing. -/
def check_timeouts_step (st : Source) (now buffer_timeout : Int) :
    Source × List (List Char) :=
  if st.buffer ≠ [] ∧ now - st.last_process_time > buffer_timeout * 2 then
    match (match_positions st.buffer).head? with
    | some p => (⟨[], now⟩, [py_strip (st.buffer.drop p)])
    | none => (st, [])
  else (st, [])

/-- Tail of the label regex `!\s+([A-Za-z0-9]{2})\s+[A-Za-z0-9]` after
the literal `!`: one or more whitespace (greedy; the following class is
disjoint from whitespace, so greedy matching is exact), two
alphanumerics (the captured group), one or more whitespace, one
alphanumeric. -/
def label_tail_match (rest : List Char) : Option (List Char) :=
  let ws := rest.dropWhile is_py_space
  if ws.length == rest.length then none
  else
    match ws with
    | a :: b :: rest2 =>
      if a.isAlphanum && b.isAlphanum then
        let ws2 := rest2.dropWhile is_py_space
        if ws2.length == rest2.length then none
        else
          match ws2 with
          | c2 :: _ => if c2.isAlphanum then some [a, b] else none
          | [] => none
      else none
    | _ => none

/-- Leftmost-match search for the label regex, one start offset at a
time, as `re.search` does. -/
def find_label : List Char → Option (List Char)
  | [] => none
  | c :: rest =>
    match (if c == '!' then label_tail_match rest else none) with
    | some lab => some lab
    | none => find_label rest

/-- Model of `AcarsProcessor.extract_message_label`:
`re.search(r'!\s+([A-Za-z0-9]{2})\s+[A-Za-z0-9]', message)`, returning
the captured two-character group, else none. -/
def extract_message_label (message : List Char) : Option (List Char) :=
  find_label message

/-- Class `[A-F0-9]` of the tail-number regex. -/
def is_hex_up (c : Char) : Bool :=
  (decide ('A' ≤ c) && decide (c ≤ 'F')) || c.isDigit

/-- Class `[A-Z0-9]` of the tail-number regex. -/
def is_upnum (c : Char) : Bool :=
  c.isUpper || c.isDigit

/-- Class `[A-Za-z0-9-]` of the tail-number regex's captured group. -/
def is_tail_char (c : Char) : Bool :=
  c.isAlphanum || c == '-'

/-- Captured group `\.?[A-Za-z0-9-]+` at the current offset.  Greedy
`\.?` takes the dot when present, after which the class run must be
non-empty; backtracking to the dotless branch cannot succeed because
`'.'` is not in the class.  The run itself is maximal (greedy, and
nothing follows in the pattern). -/
def tail_group_match (l : List Char) : Option (List Char) :=
  match l with
  | '.' :: r =>
    match r.takeWhile is_tail_char with
    | [] => none
    | run => some ('.' :: run)
  | r =>
    match r.takeWhile is_tail_char with
    | [] => none
    | run => some run

/-- Match of the tail-number regex
`AES:[A-F0-9]+\s+GES:[A-Z0-9]+\s+\d+\s+(\.?[A-Za-z0-9-]+)` starting at
the current offset, returning the captured group.  Every `X+\s+` pair
has disjoint classes, so Python's greedy maximal runs are exact and
backtracking never changes the outcome. -/
def tail_match_at (l : List Char) : Option (List Char) :=
  match l with
  | 'A' :: 'E' :: 'S' :: ':' :: rest =>
    let hex := rest.takeWhile is_hex_up
    if hex.isEmpty then none
    else
      let rest1 := rest.drop hex.length
      let ws1 := rest1.takeWhile is_py_space
      if ws1.isEmpty then none
      else
        match rest1.drop ws1.length with
        | 'G' :: 'E' :: 'S' :: ':' :: rest3 =>
          let run2 := rest3.takeWhile is_upnum
          if run2.isEmpty then none
          else
            let rest4 := rest3.drop run2.length
            let ws2 := rest4.takeWhile is_py_space
            if ws2.isEmpty then none
            else
              let rest5 := rest4.drop ws2.length
              let digs := rest5.takeWhile Char.isDigit
              if digs.isEmpty then none
              else
                let rest6 := rest5.drop digs.length
                let ws3 := rest6.takeWhile is_py_space
                if ws3.isEmpty then none
                else tail_group_match (rest6.drop ws3.length)
        | _ => none
  | _ => none

/-- Leftmost-match search for the tail-number regex. -/
def find_tail : List Char → Option (List Char)
  | [] => none
  | l@(_ :: rest) =>
    match tail_match_at l with
    | some g => some g
    | none => find_tail rest

/-- Python `str.strip('.')`: drop leading and trailing dots. -/
def py_strip_dots (l : List Char) : List Char :=
  ((l.dropWhile (· == '.')).reverse.dropWhile (· == '.')).reverse

/-- Model of `AcarsProcessor.extract_tail_number`: search the
tail-number regex and return `match.group(1).strip('.')`, else none. -/
def extract_tail_number (message : List Char) : Option (List Char) :=
  (find_tail message).map py_strip_dots

/-- Python's substring operator `needle in haystack`. -/
def contains_sub : List Char → List Char → Bool
  | n, [] => n.isPrefixOf []
  | n, h :: t => n.isPrefixOf (h :: t) || contains_sub n t

/-- Model of `AcarsProcessor.contains_keyword`:
`keyword.lower() in message.lower()` (ASCII lowercasing). -/
def contains_keyword (message keyword : List Char) : Bool :=
  contains_sub (keyword.map Char.toLower) (message.map Char.toLower)

/-- Model of `AcarsProcessor.determine_message_type`: substring checks
in priority order, with a catch-all. -/
def determine_message_type (message : List Char) : List Char :=
  if contains_sub ("FANS-1/A CPDLC").toList message then ("CPDLC").toList
  else if contains_sub ("ADS-C").toList message then ("ADS-C").toList
  else if contains_sub ("MIAM").toList message then ("MIAM").toList
  else ("OTHER").toList

/-- Configured `split_by` strategy. -/
inductive SplitBy
  | label
  | tail
  | type
  | keyword
  deriving DecidableEq

/-- Model of `AcarsProcessor.get_split_key`: dispatch on the strategy;
the keyword strategy always yields the `containing_` or
`not_containing_` bucket name. -/
def get_split_key (split_by : SplitBy) (keyword : List Char) (message : List Char) :
    Option (List Char) :=
  match split_by with
  | SplitBy.label => extract_message_label message
  | SplitBy.tail => extract_tail_number message
  | SplitBy.type => some (determine_message_type message)
  | SplitBy.keyword =>
    if contains_keyword message keyword then some (("containing_").toList ++ keyword)
    else some (("not_containing_").toList ++ keyword)

/-- Strict UTF-8 decoder, as `bytes.decode('utf-8')`: rejects stray
continuation bytes, overlong encodings, surrogate code points and code
points above `0x10FFFF`. -/
def utf8_decode? : List Nat → Option (List Char)
  | [] => some []
  | b1 :: rest =>
    if b1 < 0x80 then (utf8_decode? rest).map (fun cs => Char.ofNat b1 :: cs)
    else if 0xC2 ≤ b1 ∧ b1 ≤ 0xDF then
      match rest with
      | b2 :: rest2 =>
        if 0x80 ≤ b2 ∧ b2 ≤ 0xBF then
          (utf8_decode? rest2).map (fun cs => Char.ofNat ((b1 - 0xC0) * 64 + (b2 - 0x80)) :: cs)
        else none
      | [] => none
    else if 0xE0 ≤ b1 ∧ b1 ≤ 0xEF then
      match rest with
      | b2 :: b3 :: rest3 =>
        if 0x80 ≤ b2 ∧ b2 ≤ 0xBF ∧ 0x80 ≤ b3 ∧ b3 ≤ 0xBF then
          let c := (b1 - 0xE0) * 4096 + (b2 - 0x80) * 64 + (b3 - 0x80)
          if 0x800 ≤ c ∧ ¬(0xD800 ≤ c ∧ c ≤ 0xDFFF) then
            (utf8_decode? rest3).map (fun cs => Char.ofNat c :: cs)
          else none
        else none
      | _ => none
    else if 0xF0 ≤ b1 ∧ b1 ≤ 0xF4 then
      match rest with
      | b2 :: b3 :: b4 :: rest4 =>
        if 0x80 ≤ b2 ∧ b2 ≤ 0xBF ∧ 0x80 ≤ b3 ∧ b3 ≤ 0xBF ∧ 0x80 ≤ b4 ∧ b4 ≤ 0xBF then
          let c := (b1 - 0xF0) * 262144 + (b2 - 0x80) * 4096 + (b3 - 0x80) * 64 + (b4 - 0x80)
          if 0x10000 ≤ c ∧ c ≤ 0x10FFFF then
            (utf8_decode? rest4).map (fun cs => Char.ofNat c :: cs)
          else none
        else none
      | _ => none
    else none

/-- Model of `AcarsProtocol.datagram_received` for one port: decode the
datagram as UTF-8; on success append it to the source buffer and
process (`add_data_to_buffer`); on `UnicodeDecodeError` print a warning
(no state effect) and drop the datagram.  The handler is total: a
decode failure is never fatal. -/
def datagram_received (data : List Nat) (st : Source) (now : Int) :
    Source × List (List Char) :=
  match utf8_decode? data with
  | some s => add_data_to_buffer st s now
  | none => (st, [])

/-- One incremental feed step of the listener path: append the chunk
to the buffer, run the framer, and collect the raw spans of the frames
it emits (the emitted messages themselves are these spans stripped). -/
def feed_step (acc : List (List Char) × List Char) (chunk : List Char) :
    List (List Char) × List Char :=
  let r := process_buffer_spans (acc.2 ++ chunk)
  (acc.1 ++ r.1, r.2)

/-- Incremental feed of a whole chunked stream, starting from an empty
buffer: returns (raw spans of all emitted frames in emission order,
still-pending buffer). -/
def feed_all (chunks : List (List Char)) : List (List Char) × List Char :=
  chunks.foldl feed_step ([], [])

/-- Spec §8 Scenario A buffer, exactly as written there: the header
lines use `AA:AA:AA` / `BB:BB:BB`, letters where the delimiter regex
demands `\d{2}` digits. -/
def scenario_a_buf : List Char :=
  ("AA:AA:AA 01-01-24 UTC msg1\nbody1\nBB:BB:BB 01-01-24 UTC msg2\nbody2").toList

/-- Scenario A buffer with genuine two-digit timestamps. -/
def scenario_a_digits_buf : List Char :=
  ("11:11:11 01-01-24 UTC msg1\nbody1\n22:22:22 01-01-24 UTC msg2\nbody2").toList

/-- Buffer with exactly two delimiter occurrences, both at line starts. -/
def two_delims_buf : List Char :=
  ("11:11:11 01-01-24 UTC a\n22:22:22 01-01-24 UTC b").toList

/-- Buffer with exactly one delimiter occurrence, at offset 0. -/
def one_delim_buf : List Char :=
  ("11:11:11 01-01-24 UTC x").toList

/-- Buffer with junk text before the first of two delimiters. -/
def junk_buf : List Char :=
  ("x\n00:00:00 00-00-00 UTC a\n00:00:00 00-00-00 UTC b").toList

/-- One-chunk stream with two delimiters used for the round-trip
analysis. -/
def roundtrip_chunk : List Char :=
  ("00:00:00 00-00-00 UTC a\n00:00:00 00-00-00 UTC b").toList

/-- First half of `roundtrip_chunk`, cut in the middle of the second
delimiter. -/
def roundtrip_chunk1 : List Char :=
  ("00:00:00 00-00-00 UTC a\n00:00:0").toList

/-- Second half of `roundtrip_chunk`. -/
def roundtrip_chunk2 : List Char :=
  ("0 00-00-00 UTC b").toList

/-! Helper lemmas about the delimiter matcher and the framer. -/

lemma pattern_at_length {l : List Char} (h : pattern_at l = true) : 21 ≤ l.length := by
  unfold pattern_at at h
  rw [Bool.and_eq_true, beq_iff_eq] at h
  have := h.1
  simp only [List.length_take] at this
  omega

lemma pattern_at_append {l e : List Char} (h : pattern_at l = true) :
    pattern_at (l ++ e) = true := by
  have hlen := pattern_at_length h
  unfold pattern_at at h ⊢
  rwa [List.take_append_of_le_length hlen]

lemma match_at_lt_length {buf : List Char} {p : Nat} (h : match_at buf p = true) :
    p < buf.length := by
  unfold match_at at h
  rw [Bool.and_eq_true] at h
  have := pattern_at_length h.2
  simp only [List.length_drop] at this
  omega

lemma match_at_append {buf e : List Char} {p : Nat} (h : match_at buf p = true) :
    match_at (buf ++ e) p = true := by
  have hlt := match_at_lt_length h
  unfold match_at at h ⊢
  rw [Bool.and_eq_true] at h
  rw [Bool.and_eq_true]
  refine ⟨?_, ?_⟩
  · rcases Bool.or_eq_true_iff.mp h.1 with h0 | hn
    · exact Bool.or_eq_true_iff.mpr (Or.inl h0)
    · refine Bool.or_eq_true_iff.mpr (Or.inr ?_)
      rwa [List.getElem?_append_left (by omega : p - 1 < buf.length)]
  · rw [List.drop_append_of_le_length (by omega : p ≤ buf.length)]
    exact pattern_at_append h.2

lemma mem_match_positions {buf : List Char} {q : Nat} :
    q ∈ match_positions buf ↔ match_at buf q = true := by
  unfold match_positions
  rw [List.mem_filter, List.mem_range]
  constructor
  · exact fun h => h.2
  · exact fun h => ⟨match_at_lt_length h, h⟩

lemma delim_classes_reject_newline :
    delim_classes.all (fun f => !(f '\n')) = true := by decide

/-- Two delimiter matches are at least 21 characters apart: the 21
matched characters contain no newline, so no further line start - and
hence no further match - can begin inside a match.  This is why the
filter over all offsets coincides with `re.finditer`'s non-overlapping
scan. -/
lemma match_at_apart {buf : List Char} {p q : Nat}
    (hp : match_at buf p = true) (hq : match_at buf q = true) (hlt : p < q) :
    p + 21 ≤ q := by
  by_contra hc
  push_neg at hc
  unfold match_at at hp hq
  rw [Bool.and_eq_true] at hp hq
  have hnl : buf[q-1]? = some '\n' := by
    rcases Bool.or_eq_true_iff.mp hq.1 with h0 | hnl
    · have : q = 0 := by simpa using h0
      omega
    · simpa using hnl
  have hpat := hp.2
  unfold pattern_at at hpat
  rw [Bool.and_eq_true, beq_iff_eq] at hpat
  have hjlt : q - 1 - p < 21 := by omega
  have hchar : ((buf.drop p).take 21)[q-1-p]? = some '\n' := by
    rw [List.getElem?_take_of_lt hjlt, List.getElem?_drop]
    rw [show p + (q - 1 - p) = q - 1 by omega]
    exact hnl
  have hclen : delim_classes.length = 21 := rfl
  obtain ⟨f, hf⟩ : ∃ f, delim_classes[q-1-p]? = some f :=
    ⟨_, List.getElem?_eq_getElem (by omega)⟩
  have hpair : (delim_classes.zip ((buf.drop p).take 21))[q-1-p]? = some (f, '\n') := by
    rw [List.zip_eq_zipWith, List.getElem?_zipWith, hf, hchar]
  have hmem := List.getElem?_mem hpair
  have hpass : f '\n' = true := List.all_eq_true.mp hpat.2 _ hmem
  have hfmem : f ∈ delim_classes := List.getElem?_mem hf
  have hreject := List.all_eq_true.mp delim_classes_reject_newline f hfmem
  rw [hpass] at hreject
  exact absurd hreject (by simp)

lemma match_positions_sorted (buf : List Char) :
    (match_positions buf).Pairwise (· < ·) :=
  (List.pairwise_lt_range buf.length).filter _

lemma match_positions_head_zero {buf : List Char} (h : match_at buf 0 = true) :
    ∃ t, match_positions buf = 0 :: t := by
  have hlt : 0 < buf.length := match_at_lt_length h
  unfold match_positions
  obtain ⟨n, hn⟩ : ∃ n, buf.length = n + 1 := ⟨buf.length - 1, by omega⟩
  rw [hn, List.range_succ_eq_map, List.filter_cons_of_pos h]
  exact ⟨_, rfl⟩

lemma sub_append_sub {buf : List Char} {a b c : Nat} (hab : a ≤ b) (hbc : b ≤ c) :
    sub buf a b ++ sub buf b c = sub buf a c := by
  unfold sub
  have h1 : buf.drop b = (buf.drop a).drop (b - a) := by
    rw [List.drop_drop]
    congr 1
    omega
  rw [h1, ← List.take_add]
  congr 1
  omega

lemma sub_append_drop {buf : List Char} {a b : Nat} (hab : a ≤ b) :
    sub buf a b ++ buf.drop b = buf.drop a := by
  unfold sub
  have h1 : buf.drop b = (buf.drop a).drop (b - a) := by
    rw [List.drop_drop]
    congr 1
    omega
  rw [h1, List.take_append_drop]

lemma pairwise_le_getLastD {a d : Nat} : ∀ {t : List Nat},
    (a :: t).Pairwise (· ≤ ·) → a ≤ (a :: t).getLastD d
  | [], _ => Nat.le_refl a
  | b :: t', h => by
    have h' := List.pairwise_cons.mp h
    have hab : a ≤ b := h'.1 b (List.mem_cons_self b t')
    have : b ≤ (b :: t').getLastD d := pairwise_le_getLastD h'.2
    calc a ≤ b := hab
      _ ≤ _ := this

lemma mem_le_getLastD {d : Nat} : ∀ {l : List Nat} {q : Nat},
    l.Pairwise (· ≤ ·) → q ∈ l → q ≤ l.getLastD d
  | [], _, _, hq => absurd hq (List.not_mem_nil _)
  | a :: t, q, h, hq => by
    rcases List.mem_cons.mp hq with rfl | hqt
    · exact pairwise_le_getLastD h
    · have h' := List.pairwise_cons.mp h
      cases t with
      | nil => exact absurd hqt (List.not_mem_nil _)
      | cons b t' =>
        have : q ≤ (b :: t').getLastD d := mem_le_getLastD h'.2 hqt
        simpa using this

lemma getLastD_mem {l : List Nat} {d : Nat} (h : l ≠ []) : l.getLastD d ∈ l := by
  cases l with
  | nil => exact absurd rfl h
  | cons a t =>
    have : (a :: t).getLastD d = (a :: t).getLast (by simp) := by
      rw [List.getLast_eq_getLastD]
      cases t <;> simp [List.getLastD]
    rw [this]
    exact List.getLast_mem _

/-- Concatenating the adjacent-pair spans of a sorted, non-empty
offset list yields the single span from the first offset to the last:
the shape of the `for i in range(len(matches) - 1)` loop of
`process_buffer`. -/
lemma flatten_spans {buf : List Char} : ∀ {ms : List Nat},
    ms.Pairwise (· ≤ ·) → ms ≠ [] →
    (((ms.zip ms.tail).map fun pq => sub buf pq.1 pq.2).flatten) =
      sub buf (ms.headD 0) (ms.getLastD 0)
  | [], _, hne => absurd rfl hne
  | [a], _, _ => by simp [sub]
  | a :: b :: t, h, _ => by
    have h' := List.pairwise_cons.mp h
    have hab : a ≤ b := h'.1 b (List.mem_cons_self b t)
    have ih := @flatten_spans buf (b :: t) h'.2 (List.cons_ne_nil b t)
    simp only [List.zip_cons_cons, List.tail_cons, List.map_cons, List.flatten_cons] at ih ⊢
    rw [ih]
    simp only [List.headD_cons]
    have hbl : b ≤ (b :: t).getLastD 0 := pairwise_le_getLastD h'.2
    have : (a :: b :: t).getLastD 0 = (b :: t).getLastD 0 := by simp
    rw [this]
    exact sub_append_sub hab hbl

lemma process_no_flush {buf : List Char} (h : (match_positions buf).length < 2) :
    process_buffer_spans buf = ([], buf) := by
  unfold process_buffer_spans
  simp [h]

/-- When a flush happens, the emitted raw spans followed by the
retained buffer make up exactly the buffer from its first delimiter
onward: only the pre-first-delimiter prefix is discarded. -/
lemma process_flush {buf : List Char} (h : 2 ≤ (match_positions buf).length) :
    (process_buffer_spans buf).1.flatten ++ (process_buffer_spans buf).2 =
      buf.drop ((match_positions buf).headD 0) := by
  unfold process_buffer_spans
  rw [if_neg (by omega)]
  have hne : match_positions buf ≠ [] := by
    intro hnil
    rw [hnil] at h
    simp at h
  have hsorted : (match_positions buf).Pairwise (· ≤ ·) :=
    (match_positions_sorted buf).imp Nat.le_of_lt
  rw [flatten_spans hsorted hne]
  have hmem : (match_positions buf).headD 0 ∈ match_positions buf := by
    cases hms : match_positions buf with
    | nil => exact absurd hms hne
    | cons a t => simp
  exact sub_append_drop (mem_le_getLastD hsorted hmem)

lemma match_at_retained_zero {buf : List Char} (h : 2 ≤ (match_positions buf).length) :
    match_at ((process_buffer_spans buf).2) 0 = true := by
  unfold process_buffer_spans
  rw [if_neg (by omega)]
  have hne : match_positions buf ≠ [] := by
    intro hnil
    rw [hnil] at h
    simp at h
  have hL : (match_positions buf).getLastD 0 ∈ match_positions buf := getLastD_mem hne
  have hmL : match_at buf ((match_positions buf).getLastD 0) = true :=
    mem_match_positions.mp hL
  unfold match_at at hmL ⊢
  rw [Bool.and_eq_true] at hmL
  simp only [List.drop_zero]
  rw [Bool.and_eq_true]
  exact ⟨by simp, hmL.2⟩

lemma length_ge_of_match {buf : List Char} {q : Nat} (h : match_at buf q = true) :
    21 ≤ buf.length := by
  unfold match_at at h
  rw [Bool.and_eq_true] at h
  have := pattern_at_length h.2
  simp only [List.length_drop] at this
  omega

lemma match_at_zero_of_prefix {buf rest : List Char}
    (hm : match_at (buf ++ rest) 0 = true) (hlen : 21 ≤ buf.length) :
    match_at buf 0 = true := by
  unfold match_at at hm ⊢
  rw [Bool.and_eq_true] at hm
  rw [Bool.and_eq_true]
  refine ⟨by simp, ?_⟩
  have h2 := hm.2
  simp only [List.drop_zero] at h2 ⊢
  unfold pattern_at at h2 ⊢
  rwa [List.take_append_of_le_length hlen] at h2

lemma headD_zero {buf : List Char} (h : match_at buf 0 = true) :
    (match_positions buf).headD 0 = 0 := by
  obtain ⟨t, ht⟩ := match_positions_head_zero h
  rw [ht]
  simp

lemma match_at_drop {buf : List Char} {L q : Nat} (hq : 1 ≤ q) :
    match_at (buf.drop L) q = match_at buf (L + q) := by
  unfold match_at
  have h1 : (buf.drop L)[q-1]? = buf[L + (q-1)]? := List.getElem?_drop buf L (q-1)
  have h2 : L + (q - 1) = L + q - 1 := by omega
  rw [h1, h2]
  have h3 : (buf.drop L).drop q = buf.drop (L + q) := by rw [List.drop_drop]
  rw [h3]
  have hq0 : (q == 0) = false := by
    have : q ≠ 0 := by omega
    simp [this]
  have hLq0 : ((L + q) == 0) = false := by
    have : L + q ≠ 0 := by omega
    simp [this]
  rw [hq0, hLq0]

/-- After a flush, the retained buffer contains exactly one delimiter
occurrence: the one at offset 0 that started the last, still-pending
message. -/
lemma match_positions_retained {buf : List Char} (h : 2 ≤ (match_positions buf).length) :
    match_positions ((process_buffer_spans buf).2) = [0] := by
  have hne : match_positions buf ≠ [] := by
    intro hnil
    rw [hnil] at h
    simp at h
  have hbuf' : (process_buffer_spans buf).2 = buf.drop ((match_positions buf).getLastD 0) := by
    unfold process_buffer_spans
    rw [if_neg (by omega)]
  have hm0 : match_at ((process_buffer_spans buf).2) 0 = true := match_at_retained_zero h
  have hsorted : (match_positions buf).Pairwise (· ≤ ·) :=
    (match_positions_sorted buf).imp Nat.le_of_lt
  have hmax : ∀ q, match_at buf q = true → q ≤ (match_positions buf).getLastD 0 :=
    fun q hq => mem_le_getLastD hsorted (mem_match_positions.mpr hq)
  set L := (match_positions buf).getLastD 0 with hL
  rw [hbuf'] at hm0 ⊢
  have hnomatch : ∀ q, 1 ≤ q → match_at (buf.drop L) q = false := by
    intro q hq
    rw [match_at_drop hq]
    by_contra hc
    rw [Bool.not_eq_false] at hc
    have := hmax (L + q) hc
    omega
  have hlen : 0 < (buf.drop L).length := by
    have := length_ge_of_match hm0
    omega
  unfold match_positions
  obtain ⟨n, hn⟩ : ∃ n, (buf.drop L).length = n + 1 := ⟨(buf.drop L).length - 1, by omega⟩
  rw [hn, List.range_succ_eq_map, List.filter_cons_of_pos hm0, List.filter_map]
  have : List.filter (match_at (buf.drop L) ∘ Nat.succ) (List.range n) = [] := by
    rw [List.filter_eq_nil_iff]
    intro x _
    simp only [Function.comp_apply]
    rw [hnomatch (x + 1) (by omega)]
    simp
  rw [this]
  rfl

/-- Invariant of the incremental feed: as long as the whole stream
begins with a delimiter, the raw spans collected so far followed by
the pending buffer always reconstruct the data fed so far.  Before the
first flush the buffer literally equals the fed data; after a flush
the buffer starts with a delimiter at offset 0, so no later flush ever
discards a prefix. -/
lemma feed_inv (total : List Char) (hm : match_at total 0 = true) :
    ∀ (chunks : List (List Char)) (acc : List (List Char) × List Char) (fed : List Char),
      fed ++ chunks.flatten = total →
      ((acc.1 = [] ∧ acc.2 = fed) ∨
        (match_at acc.2 0 = true ∧ acc.1.flatten ++ acc.2 = fed)) →
      (chunks.foldl feed_step acc).1.flatten ++ (chunks.foldl feed_step acc).2 = total := by
  intro chunks
  induction chunks with
  | nil =>
    intro acc fed hfed hinv
    simp only [List.flatten_nil, List.append_nil] at hfed
    subst hfed
    simp only [List.foldl_nil]
    rcases hinv with ⟨h1, h2⟩ | ⟨_, h2⟩
    · rw [h1, h2]
      simp
    · exact h2
  | cons c cs ih =>
    intro acc fed hfed hinv
    simp only [List.foldl_cons]
    have hfed' : (fed ++ c) ++ cs.flatten = total := by
      rw [List.flatten_cons, ← List.append_assoc] at hfed
      exact hfed
    apply ih (feed_step acc c) (fed ++ c) hfed'
    have hstep : feed_step acc c =
        (acc.1 ++ (process_buffer_spans (acc.2 ++ c)).1,
          (process_buffer_spans (acc.2 ++ c)).2) := rfl
    by_cases hlen : (match_positions (acc.2 ++ c)).length < 2
    · have hr : process_buffer_spans (acc.2 ++ c) = ([], acc.2 ++ c) := process_no_flush hlen
      rw [hstep, hr]
      rcases hinv with ⟨h1, h2⟩ | ⟨hma, heq⟩
      · left
        constructor
        · rw [h1]
          rfl
        · rw [h2]
      · right
        refine ⟨match_at_append hma, ?_⟩
        simp only [List.append_nil]
        rw [← List.append_assoc, heq]
    · have hlen2 : 2 ≤ (match_positions (acc.2 ++ c)).length := by omega
      have hm0 : match_at (acc.2 ++ c) 0 = true := by
        rcases hinv with ⟨h1, h2⟩ | ⟨hma, heq⟩
        · have hne : match_positions (acc.2 ++ c) ≠ [] := by
            intro hnil
            rw [hnil] at hlen2
            simp at hlen2
          obtain ⟨q, hq⟩ := List.exists_mem_of_ne_nil _ hne
          have h21 : 21 ≤ (acc.2 ++ c).length :=
            length_ge_of_match (mem_match_positions.mp hq)
          have htot : (acc.2 ++ c) ++ cs.flatten = total := by
            rw [h2]
            exact hfed'
          exact match_at_zero_of_prefix (htot ▸ hm) h21
        · exact match_at_append hma
      have hflush := process_flush hlen2
      rw [headD_zero hm0, List.drop_zero] at hflush
      rw [hstep]
      right
      refine ⟨match_at_retained_zero hlen2, ?_⟩
      rw [List.flatten_append, List.append_assoc, hflush]
      rcases hinv with ⟨h1, h2⟩ | ⟨hma, heq⟩
      · rw [h1, h2]
        simp
      · rw [← List.append_assoc, heq]

example :
    match_positions ("11:11:11 01-01-24 UTC a\n22:22:22 01-01-24 UTC b").toList
      = [0, 24] := by decide

example :
    process_buffer ("11:11:11 01-01-24 UTC a\n22:22:22 01-01-24 UTC b").toList
      = ([("11:11:11 01-01-24 UTC a").toList], ("22:22:22 01-01-24 UTC b").toList) := by
  decide

/-! Claim theorems. -/

/-- Claim C1: for a buffer containing exactly N delimiter occurrences
(N at least 2), one `process_buffer` call emits exactly N-1 frames, the
i-th emitted frame being the span from the i-th delimiter offset to the
(i+1)-th delimiter offset (emitted trimmed, per spec §4.2 "the span
between them is trimmed and emitted"), in delimiter order, and
afterwards the buffer is the original buffer's suffix from the last
delimiter offset. -/
theorem C1_ordinary_framing (buf : List Char) (N : Nat)
    (hN : (match_positions buf).length = N) (h2 : 2 ≤ N) :
    (process_buffer buf).1.length = N - 1 ∧
    (∀ i, i < N - 1 →
      (process_buffer buf).1[i]? =
        some (py_strip (sub buf ((match_positions buf).getD i 0)
          ((match_positions buf).getD (i + 1) 0)))) ∧
    (process_buffer buf).2 = buf.drop ((match_positions buf).getLastD 0) := by
  have hnotlt : ¬ (match_positions buf).length < 2 := by omega
  have hspans : process_buffer_spans buf =
      (((match_positions buf).zip (match_positions buf).tail).map
        (fun pq => sub buf pq.1 pq.2),
        buf.drop ((match_positions buf).getLastD 0)) := by
    unfold process_buffer_spans
    rw [if_neg hnotlt]
  have hpb1 : (process_buffer buf).1 =
      (((match_positions buf).zip (match_positions buf).tail).map
        (fun pq => sub buf pq.1 pq.2)).map py_strip := by
    unfold process_buffer
    rw [hspans]
  refine ⟨?_, ?_, ?_⟩
  · rw [hpb1]
    simp only [List.length_map, List.length_zip, List.length_tail, hN]
    omega
  · intro i hi
    have hi1 : i < (match_positions buf).length := by omega
    have hi2 : i + 1 < (match_positions buf).length := by omega
    rw [hpb1, List.zip_eq_zipWith, List.getElem?_map, List.getElem?_map,
      List.getElem?_zipWith, List.getElem?_eq_getElem hi1, List.getElem?_tail,
      List.getElem?_eq_getElem hi2]
    simp [List.getD_eq_getElem?_getD, List.getElem?_eq_getElem hi1,
      List.getElem?_eq_getElem hi2]
  · unfold process_buffer
    rw [hspans]

/-- Witness for C1 at the concrete two-delimiter buffer. -/
theorem C1_ordinary_framing_witness :
    (process_buffer two_delims_buf).1.length = 1 ∧
    (process_buffer two_delims_buf).1[0]? =
      some (py_strip (sub two_delims_buf ((match_positions two_delims_buf).getD 0 0)
        ((match_positions two_delims_buf).getD 1 0))) ∧
    (process_buffer two_delims_buf).2 =
      two_delims_buf.drop ((match_positions two_delims_buf).getLastD 0) :=
  ⟨(C1_ordinary_framing two_delims_buf 2 (by decide) (by decide)).1,
   (C1_ordinary_framing two_delims_buf 2 (by decide) (by decide)).2.1 0 (by decide),
   (C1_ordinary_framing two_delims_buf 2 (by decide) (by decide)).2.2⟩

/-- Claim C2, counterexample: feeding the two-delimiter stream
`roundtrip_chunk` as a single chunk, the concatenation of all emitted
frames (the trimmed spans, as the code emits them) followed by the
pending buffer does NOT reconstruct the input: `.strip()` removes the
newline that separated the first message from the second delimiter. -/
theorem C2_roundtrip_cex :
    ¬ ((((feed_all [roundtrip_chunk]).1.map py_strip).flatten ++
        (feed_all [roundtrip_chunk]).2) = [roundtrip_chunk].flatten) := by
  decide

/-- Claim C2 as amended: for every chunking, the concatenation of the
raw (untrimmed) delimiter-to-delimiter spans of all emitted frames, in
emission order, followed by the still-pending buffer, reconstructs the
input exactly, provided the input begins with a delimiter occurrence
(otherwise the text before the first delimiter is discarded at the
first flush, and the emitted frames themselves are the spans with
surrounding whitespace stripped). -/
theorem C2_roundtrip_amended (chunks : List (List Char))
    (h : match_at chunks.flatten 0 = true) :
    (feed_all chunks).1.flatten ++ (feed_all chunks).2 = chunks.flatten := by
  unfold feed_all
  exact feed_inv chunks.flatten h chunks ([], []) [] (by simp) (Or.inl ⟨rfl, rfl⟩)

/-- Witness for the amended C2 on a stream cut in the middle of its
second delimiter line. -/
theorem C2_roundtrip_amended_witness :
    match_at ([roundtrip_chunk1, roundtrip_chunk2].flatten) 0 = true ∧
    (feed_all [roundtrip_chunk1, roundtrip_chunk2]).1.flatten ++
      (feed_all [roundtrip_chunk1, roundtrip_chunk2]).2 =
      [roundtrip_chunk1, roundtrip_chunk2].flatten :=
  ⟨by decide, C2_roundtrip_amended [roundtrip_chunk1, roundtrip_chunk2] (by decide)⟩

/-- Claim C3: when the sweeper visits a non-empty, stale buffer
(elapsed time beyond twice the timeout) containing a delimiter, it
emits everything from the first delimiter offset to the buffer end as
one message (trimmed by `.strip()`, as the code emits it), clears the
buffer, and sets the activity timestamp to now. -/
theorem C3_sweeper_flush (st : Source) (now t0 : Int) (p : Nat)
    (hne : st.buffer ≠ []) (hstale : now - st.last_process_time > t0 * 2)
    (hp : (match_positions st.buffer).head? = some p) :
    check_timeouts_step st now t0 = (⟨[], now⟩, [py_strip (st.buffer.drop p)]) := by
  unfold check_timeouts_step
  rw [if_pos ⟨hne, hstale⟩, hp]

/-- Witness for C3: the remainder of the digit-corrected Scenario A,
stale after 121 seconds with timeout 60, is force-flushed whole. -/
theorem C3_sweeper_flush_witness :
    (⟨one_delim_buf, 0⟩ : Source).buffer ≠ [] ∧
    (121 : Int) - 0 > 60 * 2 ∧
    (match_positions one_delim_buf).head? = some 0 ∧
    check_timeouts_step ⟨one_delim_buf, 0⟩ 121 60 =
      (⟨[], 121⟩, [py_strip (one_delim_buf.drop 0)]) :=
  ⟨by decide, by decide, by decide,
    C3_sweeper_flush ⟨one_delim_buf, 0⟩ 121 60 0 (by decide) (by decide) (by decide)⟩

/-- Claim C4, counterexample: on the spec's literal Scenario A buffer,
`process_buffer` does not emit the claimed frame - it emits nothing and
leaves the buffer unchanged, because `AA:AA:AA` and `BB:BB:BB` contain
letters where the delimiter regex `\d{2}:\d{2}:\d{2}` requires digits,
so the buffer holds zero delimiter occurrences. -/
theorem C4_scenario_a_cex :
    process_buffer scenario_a_buf ≠
      ([("AA:AA:AA 01-01-24 UTC msg1\nbody1").toList],
        ("BB:BB:BB 01-01-24 UTC msg2\nbody2").toList) ∧
    process_buffer scenario_a_buf = ([], scenario_a_buf) := by
  decide

/-- Claim C4 as amended: with genuine two-digit timestamps in the
header lines, one `process_buffer` call emits exactly one frame, the
first message, and retains the second from its delimiter onward. -/
theorem C4_scenario_a_amended :
    process_buffer scenario_a_digits_buf =
      ([("11:11:11 01-01-24 UTC msg1\nbody1").toList],
        ("22:22:22 01-01-24 UTC msg2\nbody2").toList) := by
  decide

/-- Claim C5, counterexample: `last_process_times` is NOT updated only
by ordinary delimiter-pair-bounded flushes.  A sweeper-forced flush of
a stale buffer that does contain a delimiter (here `one_delim_buf`,
which a `process_buffer` call would never flush: one delimiter cannot
bound a frame) emits a message and sets the activity timestamp to the
sweep time. -/
theorem C5_last_activity_cex :
    (process_buffer one_delim_buf).1 = [] ∧
    (check_timeouts_step ⟨one_delim_buf, 0⟩ 121 60).2 ≠ [] ∧
    (check_timeouts_step ⟨one_delim_buf, 0⟩ 121 60).1.last_process_time = 121 := by
  decide

/-- Claim C5 as amended: the activity timestamp is updated exactly when
a flush emits at least one message - an ordinary `process_buffer` flush
or a sweeper-forced flush of a stale, delimiter-containing buffer - and
is left unchanged whenever nothing is emitted, in particular on
appends that yield zero frames and on sweeper visits to buffers lacking
any delimiter. -/
theorem C5_last_activity_amended :
    (∀ st data now, (add_data_to_buffer st data now).2 = [] →
      (add_data_to_buffer st data now).1.last_process_time = st.last_process_time) ∧
    (∀ st data now, (add_data_to_buffer st data now).2 ≠ [] →
      (add_data_to_buffer st data now).1.last_process_time = now) ∧
    (∀ st now t0, (check_timeouts_step st now t0).2 = [] →
      (check_timeouts_step st now t0).1.last_process_time = st.last_process_time) ∧
    (∀ st now t0, (check_timeouts_step st now t0).2 ≠ [] →
      (check_timeouts_step st now t0).1.last_process_time = now) := by
  refine ⟨?_, ?_, ?_, ?_⟩
  · intro st data now h
    by_cases hc : 0 < (process_buffer (st.buffer ++ data)).1.length
    · simp only [add_data_to_buffer, if_pos hc] at h
      rw [h] at hc
      simp at hc
    · simp only [add_data_to_buffer, if_neg hc]
  · intro st data now h
    by_cases hc : 0 < (process_buffer (st.buffer ++ data)).1.length
    · simp only [add_data_to_buffer, if_pos hc]
    · simp only [add_data_to_buffer, if_neg hc] at h
      rw [Nat.not_lt, Nat.le_zero, List.length_eq_zero] at hc
      exact absurd hc h
  · intro st now t0 h
    by_cases hcond : st.buffer ≠ [] ∧ now - st.last_process_time > t0 * 2
    · cases hm : (match_positions st.buffer).head? with
      | some p =>
        simp only [check_timeouts_step, if_pos hcond, hm] at h
        exact absurd h (List.cons_ne_nil _ _)
      | none =>
        simp only [check_timeouts_step, if_pos hcond, hm]
    · simp only [check_timeouts_step, if_neg hcond]
  · intro st now t0 h
    by_cases hcond : st.buffer ≠ [] ∧ now - st.last_process_time > t0 * 2
    · cases hm : (match_positions st.buffer).head? with
      | some p =>
        simp only [check_timeouts_step, if_pos hcond, hm]
      | none =>
        simp only [check_timeouts_step, if_pos hcond, hm] at h
        exact absurd rfl h
    · simp only [check_timeouts_step, if_neg hcond] at h
      exact absurd rfl h

/-- Witness for the amended C5, one concrete instance per conjunct:
a frameless append leaves the timestamp at 0; a two-delimiter append
sets it to 5; an emissionless sweep leaves it at 0; an emitting sweep
sets it to 121. -/
theorem C5_last_activity_amended_witness :
    (add_data_to_buffer ⟨[], 0⟩ [] 5).1.last_process_time = 0 ∧
    (add_data_to_buffer ⟨[], 0⟩ two_delims_buf 5).1.last_process_time = 5 ∧
    (check_timeouts_step ⟨("hello").toList, 0⟩ 121 60).1.last_process_time = 0 ∧
    (check_timeouts_step ⟨one_delim_buf, 0⟩ 121 60).1.last_process_time = 121 :=
  ⟨C5_last_activity_amended.1 ⟨[], 0⟩ [] 5 (by decide),
   C5_last_activity_amended.2.1 ⟨[], 0⟩ two_delims_buf 5 (by decide),
   C5_last_activity_amended.2.2.1 ⟨("hello").toList, 0⟩ 121 60 (by decide),
   C5_last_activity_amended.2.2.2 ⟨one_delim_buf, 0⟩ 121 60 (by decide)⟩

/-- Claim C6: a sweeper visit to a non-empty, stale buffer containing
no delimiter occurrence at all changes nothing: same buffer, same
activity timestamp, nothing emitted - so the identical check recurs on
the next cycle. -/
theorem C6_sweeper_no_delim (st : Source) (now t0 : Int)
    (hne : st.buffer ≠ []) (hstale : now - st.last_process_time > t0 * 2)
    (hnone : match_positions st.buffer = []) :
    check_timeouts_step st now t0 = (st, []) := by
  unfold check_timeouts_step
  rw [if_pos ⟨hne, hstale⟩, hnone]
  rfl

/-- Witness for C6 on a delimiter-free stale buffer. -/
theorem C6_sweeper_no_delim_witness :
    (⟨("hello").toList, 0⟩ : Source).buffer ≠ [] ∧
    (121 : Int) - 0 > 60 * 2 ∧
    match_positions ("hello").toList = [] ∧
    check_timeouts_step ⟨("hello").toList, 0⟩ 121 60 = (⟨("hello").toList, 0⟩, []) :=
  ⟨by decide, by decide, by decide,
    C6_sweeper_no_delim ⟨("hello").toList, 0⟩ 121 60 (by decide) (by decide) (by decide)⟩

/-- Claim C7: the keyword strategy always returns a key - the
`containing_` or `not_containing_` bucket name - never none, while the
label and tail strategies each return none for some message (the empty
message suffices: neither regex can match it). -/
theorem C7_keyword_total :
    (∀ kw msg, get_split_key SplitBy.keyword kw msg = some (("containing_").toList ++ kw) ∨
      get_split_key SplitBy.keyword kw msg = some (("not_containing_").toList ++ kw)) ∧
    (∃ m, get_split_key SplitBy.label [] m = none) ∧
    (∃ m, get_split_key SplitBy.tail [] m = none) := by
  refine ⟨?_, ⟨[], by decide⟩, ⟨[], by decide⟩⟩
  intro kw msg
  by_cases h : contains_keyword msg kw
  · left
    simp [get_split_key, h]
  · right
    simp [get_split_key, h]

/-- Claim C8: a datagram whose bytes fail strict UTF-8 decoding is
dropped (with a warning to stderr, which has no state effect): the
source's buffer and activity timestamp are unchanged and no frame is
emitted.  `datagram_received` is a total function, so the failure is
never fatal. -/
theorem C8_decode_failure (data : List Nat) (st : Source) (now : Int)
    (h : utf8_decode? data = none) :
    datagram_received data st now = (st, []) := by
  unfold datagram_received
  rw [h]

/-- Witness for C8: the byte 0xFF is not valid UTF-8. -/
theorem C8_decode_failure_witness :
    utf8_decode? [0xFF] = none ∧
    datagram_received [0xFF] ⟨one_delim_buf, 7⟩ 99 = (⟨one_delim_buf, 7⟩, []) :=
  ⟨by decide, C8_decode_failure [0xFF] ⟨one_delim_buf, 7⟩ 99 (by decide)⟩

/-- Claim C9: with fewer than two delimiter occurrences,
`process_buffer` emits nothing and leaves the buffer unchanged; and
immediately re-running it on whatever buffer a call just produced emits
zero additional frames (after a flush the retained buffer holds exactly
the one delimiter that starts the pending message). -/
theorem C9_no_op_idempotent (buf : List Char) :
    ((match_positions buf).length < 2 → process_buffer buf = ([], buf)) ∧
    (process_buffer (process_buffer buf).2).1 = [] := by
  constructor
  · intro h
    unfold process_buffer
    rw [process_no_flush h]
    rfl
  · by_cases h : (match_positions buf).length < 2
    · have h1 : process_buffer_spans buf = ([], buf) := process_no_flush h
      have h2 : (process_buffer buf).2 = buf := by
        unfold process_buffer
        rw [h1]
      rw [h2]
      unfold process_buffer
      rw [h1]
      rfl
    · have h2 : 2 ≤ (match_positions buf).length := by omega
      have hret : match_positions ((process_buffer_spans buf).2) = [0] :=
        match_positions_retained h2
      have h3 : (process_buffer buf).2 = (process_buffer_spans buf).2 := rfl
      rw [h3]
      unfold process_buffer
      rw [process_no_flush (by rw [hret]; decide)]
      rfl

/-- Witness for C9 on a delimiter-free buffer. -/
theorem C9_no_op_idempotent_witness :
    (match_positions ("ab").toList).length < 2 ∧
    process_buffer ("ab").toList = ([], ("ab").toList) ∧
    (process_buffer (process_buffer ("ab").toList).2).1 = [] :=
  ⟨by decide, (C9_no_op_idempotent ("ab").toList).1 (by decide),
    (C9_no_op_idempotent ("ab").toList).2⟩

/-- Claim C10: when an ordinary flush happens (at least two delimiters)
and non-empty text precedes the first delimiter, that leading text is
removed from the buffer and emitted in no frame: the buffer splits into
the discarded prefix followed by the emitted spans plus the retained
tail, which together are exactly the suffix from the first delimiter
onward.  Every emitted message is the strip of one of these spans, so
the discarded prefix reaches no output bucket. -/
theorem C10_leading_junk (buf : List Char) (h2 : 2 ≤ (match_positions buf).length)
    (_hpos : 0 < (match_positions buf).headD 0) :
    buf.take ((match_positions buf).headD 0) ++
      ((process_buffer_spans buf).1.flatten ++ (process_buffer_spans buf).2) = buf ∧
    (process_buffer_spans buf).1.flatten ++ (process_buffer_spans buf).2 =
      buf.drop ((match_positions buf).headD 0) := by
  have hf := process_flush h2
  refine ⟨?_, hf⟩
  rw [hf, List.take_append_drop]

/-- Witness for C10 on a buffer with junk before its two delimiters. -/
theorem C10_leading_junk_witness :
    2 ≤ (match_positions junk_buf).length ∧
    0 < (match_positions junk_buf).headD 0 ∧
    junk_buf.take ((match_positions junk_buf).headD 0) ++
      ((process_buffer_spans junk_buf).1.flatten ++ (process_buffer_spans junk_buf).2) =
      junk_buf ∧
    (process_buffer_spans junk_buf).1.flatten ++ (process_buffer_spans junk_buf).2 =
      junk_buf.drop ((match_positions junk_buf).headD 0) :=
  ⟨by decide, by decide,
    (C10_leading_junk junk_buf (by decide) (by decide)).1,
    (C10_leading_junk junk_buf (by decide) (by decide)).2⟩
